import Mathlib

/-!
Verification of the hybrid recommender in `src/models/hybrid.ipynb`.

The notebook builds, from a table of (user_id, video_id, watch_ratio)
interactions and a table of per-video categories:
  * `user_item_matrix` — a pivot table (max watch_ratio per user/video, 0 fill),
  * `user_similarity` — a dense user×user cosine-similarity matrix,
  * `content_based_cosine_sim` — an item×item linear-kernel matrix over TF-IDF rows,
and then three original functions: `recommend_videos_by_users` (collaborative),
`recommend_similar_videos` (content-based), and `recommmend_videos_for_user`
(the hybrid blend), plus evaluation metrics such as `f1_score_at_k`.

Modelling conventions of this shallow embedding:
  * Floats are modelled by `ℚ` (exact arithmetic).  The one place the program
    can produce a non-finite float is the normalization `s /= s.max()` of a
    nonempty component with zero maximum; `ℚ` would idealize that division to
    0, so the float-level per-label semantics of that corner is modelled
    explicitly by `nanDiv`/`nanMul`/`nanAddFill` (NaN as `none`), the
    counterexample state `cexNaN` exhibits it, and every theorem about score
    values assumes a nonzero maximum for each nonempty component.
  * A pandas `Series` is an ordered association list `List (Nat × ℚ)` of
    (label, value) pairs; `Series.add` with `fill_value=0` aligns on the
    sorted union of the label sets, as pandas does for distinct indexes.
  * User ids and video ids in the interaction matrix are positions
    `0 .. nUsers-1` / `0 .. nItems-1`, matching the dataset, whose ids are
    contiguous, so that numpy positional indexing and pandas label indexing
    coincide exactly as they do in the notebook.
  * numpy `argsort` and pandas `sort_values` are modelled as stable sorts
    with ties broken by position (a fixed convention; the library sorts are
    unstable, so no claim settled here is allowed to hinge on tie order).
  * Fallible lookups (numpy row indexing out of range, `.loc` on a missing
    label, `.index[0]` on an empty selection) are modelled by `Option`:
    `none` is the raised `IndexError`/`KeyError`.
  * The similarity matrices are carried as data (they are module-level
    globals in the notebook, computed once by scikit-learn routines, which
    the spec scopes out); the similarity computations themselves are
    modelled separately by `cosine_similarity` and `linear_kernel` below.
-/

namespace HybridRec

/-- The in-memory state of the notebook after the loading cells: the cleaned
interaction table and the precomputed similarity structures. -/
structure RecData where
  nUsers : Nat
  nItems : Nat
  /-- Rows (user_id, video_id, watch_ratio) of the cleaned `interactions` table. -/
  interactions : List (Nat × Nat × ℚ)
  /-- The user×user similarity matrix `user_similarity`. -/
  user_similarity : List (List ℚ)
  /-- The `video_id` column of the `categories` table. -/
  categories_video_id : List Nat
  /-- The item×item similarity matrix `content_based_cosine_sim`. -/
  content_based_cosine_sim : List (List ℚ)

/-- Watch ratios recorded for a given (user, video) cell of the pivot. -/
def pivotVals (inter : List (Nat × Nat × ℚ)) (u i : Nat) : List ℚ :=
  (inter.filter (fun r => r.1 = u ∧ r.2.1 = i)).map (fun r => r.2.2)

/-- Maximum of a list of rationals, 0 for the empty list (the pivot fill value). -/
def listMax : List ℚ → ℚ
  | [] => 0
  | [x] => x
  | x :: y :: t => max x (listMax (y :: t))

/-- The pivot table `user_item_matrix`: `aggfunc="max"` over the watch ratios of
the cell, `fill_value=0` when the user never interacted with the video.  The
pivot's index and columns are the user/video ids occurring in the interaction
table; as in the dataset — and in every concrete state below — every id under
`nUsers`/`nItems` occurs in the table, so each `.loc` lookup hits an existing
row and the cell value is total with fill 0. -/
def user_item_matrix (d : RecData) (u i : Nat) : ℚ :=
  listMax (pivotVals d.interactions u i)

/-- Mean of a list of rationals (`DataFrame.mean`); sum over length. -/
def listMean (l : List ℚ) : ℚ := l.sum / (l.length : ℚ)

/-- Python `enumerate` over a list of scores: (position, value) pairs. -/
def enumQ (l : List ℚ) : List (Nat × ℚ) :=
  (List.range l.length).map (fun i => (i, l.getD i 0))

/-- Ordering of (position, value) pairs by ascending value, ties by position:
the model of a stable ascending value sort such as `argsort`. -/
def valAscLex (a b : Nat × ℚ) : Prop := a.2 < b.2 ∨ (a.2 = b.2 ∧ a.1 ≤ b.1)

/-- Ordering of (position, value) pairs by descending value, ties by ascending
position: the model of Python's stable `sorted(..., reverse=True)` over an
enumeration and of `sort_values(ascending=False)`. -/
def valDescLex (a b : Nat × ℚ) : Prop := b.2 < a.2 ∨ (a.2 = b.2 ∧ a.1 ≤ b.1)

/-- Ordering by descending value with ties by descending position: the order
obtained by reversing a stable ascending sort. -/
def valDescIdxDesc (a b : Nat × ℚ) : Prop := b.2 < a.2 ∨ (a.2 = b.2 ∧ b.1 ≤ a.1)

instance : DecidableRel valAscLex := fun a b => by unfold valAscLex; infer_instance
instance : DecidableRel valDescLex := fun a b => by unfold valDescLex; infer_instance
instance : DecidableRel valDescIdxDesc := fun a b => by unfold valDescIdxDesc; infer_instance

instance : IsTotal (Nat × ℚ) valAscLex := by
  constructor
  intro a b
  unfold valAscLex
  rcases lt_trichotomy a.2 b.2 with h | h | h
  · exact Or.inl (Or.inl h)
  · rcases Nat.le_total a.1 b.1 with hn | hn
    · exact Or.inl (Or.inr ⟨h, hn⟩)
    · exact Or.inr (Or.inr ⟨h.symm, hn⟩)
  · exact Or.inr (Or.inl h)

instance : IsTrans (Nat × ℚ) valAscLex := by
  constructor
  intro a b c hab hbc
  unfold valAscLex at *
  rcases hab with h1 | ⟨e1, n1⟩
  · rcases hbc with h2 | ⟨e2, _⟩
    · exact Or.inl (h1.trans h2)
    · exact Or.inl (e2 ▸ h1)
  · rcases hbc with h2 | ⟨e2, n2⟩
    · exact Or.inl (e1 ▸ h2)
    · exact Or.inr ⟨e1.trans e2, n1.trans n2⟩

instance : IsAntisymm (Nat × ℚ) valAscLex := by
  constructor
  intro a b hab hba
  unfold valAscLex at *
  rcases hab with h1 | ⟨e1, n1⟩
  · rcases hba with h2 | ⟨e2, _⟩
    · exact absurd (h1.trans h2) (lt_irrefl _)
    · exact absurd h1 (e2 ▸ lt_irrefl _)
  · rcases hba with h2 | ⟨_, n2⟩
    · exact absurd h2 (e1 ▸ lt_irrefl _)
    · exact Prod.ext (Nat.le_antisymm n1 n2) e1

instance : IsTotal (Nat × ℚ) valDescLex := by
  constructor
  intro a b
  unfold valDescLex
  rcases lt_trichotomy a.2 b.2 with h | h | h
  · exact Or.inr (Or.inl h)
  · rcases Nat.le_total a.1 b.1 with hn | hn
    · exact Or.inl (Or.inr ⟨h, hn⟩)
    · exact Or.inr (Or.inr ⟨h.symm, hn⟩)
  · exact Or.inl (Or.inl h)

instance : IsTrans (Nat × ℚ) valDescLex := by
  constructor
  intro a b c hab hbc
  unfold valDescLex at *
  rcases hab with h1 | ⟨e1, n1⟩
  · rcases hbc with h2 | ⟨e2, _⟩
    · exact Or.inl (h2.trans h1)
    · exact Or.inl (e2 ▸ h1)
  · rcases hbc with h2 | ⟨e2, n2⟩
    · exact Or.inl (e1 ▸ h2)
    · exact Or.inr ⟨e1.trans e2, n1.trans n2⟩

instance : IsAntisymm (Nat × ℚ) valDescLex := by
  constructor
  intro a b hab hba
  unfold valDescLex at *
  rcases hab with h1 | ⟨e1, n1⟩
  · rcases hba with h2 | ⟨e2, _⟩
    · exact absurd (h1.trans h2) (lt_irrefl _)
    · exact absurd h1 (e2 ▸ lt_irrefl _)
  · rcases hba with h2 | ⟨_, n2⟩
    · exact absurd h2 (e1 ▸ lt_irrefl _)
    · exact Prod.ext (Nat.le_antisymm n1 n2) e1

instance : IsTotal (Nat × ℚ) valDescIdxDesc := by
  constructor
  intro a b
  unfold valDescIdxDesc
  rcases lt_trichotomy a.2 b.2 with h | h | h
  · exact Or.inr (Or.inl h)
  · rcases Nat.le_total a.1 b.1 with hn | hn
    · exact Or.inr (Or.inr ⟨h.symm, hn⟩)
    · exact Or.inl (Or.inr ⟨h, hn⟩)
  · exact Or.inl (Or.inl h)

instance : IsTrans (Nat × ℚ) valDescIdxDesc := by
  constructor
  intro a b c hab hbc
  unfold valDescIdxDesc at *
  rcases hab with h1 | ⟨e1, n1⟩
  · rcases hbc with h2 | ⟨e2, _⟩
    · exact Or.inl (h2.trans h1)
    · exact Or.inl (e2 ▸ h1)
  · rcases hbc with h2 | ⟨e2, n2⟩
    · exact Or.inl (e1 ▸ h2)
    · exact Or.inr ⟨e1.trans e2, n2.trans n1⟩

instance : IsAntisymm (Nat × ℚ) valDescIdxDesc := by
  constructor
  intro a b hab hba
  unfold valDescIdxDesc at *
  rcases hab with h1 | ⟨e1, n1⟩
  · rcases hba with h2 | ⟨e2, _⟩
    · exact absurd (h1.trans h2) (lt_irrefl _)
    · exact absurd h1 (e2 ▸ lt_irrefl _)
  · rcases hba with h2 | ⟨_, n2⟩
    · exact absurd h2 (e1 ▸ lt_irrefl _)
    · exact Prod.ext (Nat.le_antisymm n2 n1) e1

/-- Ordering of interaction rows by descending watch ratio
(`sort_values(by="watch_ratio", ascending=False)`, modelled stable). -/
def ratioDesc (a b : Nat × Nat × ℚ) : Prop := b.2.2 ≤ a.2.2

instance : DecidableRel ratioDesc := fun a b => by unfold ratioDesc; infer_instance

instance : IsTotal (Nat × Nat × ℚ) ratioDesc :=
  ⟨fun a b => (le_total b.2.2 a.2.2).imp id id⟩

instance : IsTrans (Nat × Nat × ℚ) ratioDesc :=
  ⟨fun _ _ _ hab hbc => le_trans hbc hab⟩

/-- numpy `argsort` of a score vector: the positions sorted by ascending
value (stable by position, a fixed convention for the unstable library sort). -/
def argsortAsc (v : List ℚ) : List Nat :=
  (List.insertionSort valAscLex (enumQ v)).map Prod.fst

/-- The Python slice `l[:-n:-1]`: walk the list backwards from its last
element, stopping before position `len - n`; for `n = 0` the stop index is 0,
so all but the first element are produced. -/
def sliceRevSkip {α : Type} (l : List α) (n : Nat) : List α :=
  if n = 0 then l.reverse.take (l.length - 1) else l.reverse.take (n - 1)

/-- The similar-user selection of `recommend_videos_by_users`:
`user_similarity[user_id].argsort()[:-nb_top_similar:-1]`. -/
def similar_users_of_row (row : List ℚ) (nb : Nat) : List Nat :=
  sliceRevSkip (argsortAsc row) nb

/-- pandas `Series.sort_values(ascending=False)` on a series of (label, value)
pairs, modelled as a stable sort by descending value. -/
def sortByValueDesc (s : List (Nat × ℚ)) : List (Nat × ℚ) :=
  List.insertionSort valDescLex s

/-- Collaborative filtering, `recommend_videos_by_users` from the notebook:
select the rows of the users picked by the reversed argsort slice, average
their engagement per item, sort descending, remove the items the target user
has watched (nonzero pivot cells), and return the first `res_length` items.
`none` models the numpy `IndexError` raised on an out-of-range `user_id`. -/
def recommend_videos_by_users (d : RecData) (user_id : Nat)
    (nb_top_similar : Nat := 10) (res_length : Nat := 10) :
    Option (List (Nat × ℚ)) :=
  if user_id < d.nUsers then
    let similar_users := similar_users_of_row (d.user_similarity.getD user_id []) nb_top_similar
    let recommended_items := sortByValueDesc
      ((List.range d.nItems).map (fun i =>
        (i, listMean (similar_users.map (fun v => user_item_matrix d v i)))))
    let items_user_has_watched :=
      (List.range d.nItems).filter (fun i => user_item_matrix d user_id i ≠ 0)
    some (((recommended_items.filter
      (fun p => ¬ p.1 ∈ items_user_has_watched)).take res_length))
  else none

/-- Spec variant of the collaborative scorer, for the refinement comparison.
Modelled from the spec: "from the user-similarity index, select the top-N most
similar OTHER users (N configurable, default 10); average their per-item
engagement scores" — identical to `recommend_videos_by_users` except that the
selection takes the `nb_top_similar` most similar users excluding the target
user, instead of the reversed argsort slice. -/
def recommend_videos_by_users_spec (d : RecData) (user_id : Nat)
    (nb_top_similar : Nat := 10) (res_length : Nat := 10) :
    Option (List (Nat × ℚ)) :=
  if user_id < d.nUsers then
    let similar_users :=
      ((((List.insertionSort valDescLex
          (enumQ (d.user_similarity.getD user_id []))).map Prod.fst).filter
        (fun k => k ≠ user_id)).take nb_top_similar)
    let recommended_items := sortByValueDesc
      ((List.range d.nItems).map (fun i =>
        (i, listMean (similar_users.map (fun v => user_item_matrix d v i)))))
    let items_user_has_watched :=
      (List.range d.nItems).filter (fun i => user_item_matrix d user_id i ≠ 0)
    some (((recommended_items.filter
      (fun p => ¬ p.1 ∈ items_user_has_watched)).take res_length))
  else none

/-- Content-based filtering, `recommend_similar_videos` from the notebook:
locate the categories row of `video_id`, pair every row position with its
similarity score, sort by descending score (Python's `sorted` is stable),
take the slice `[1:res_length+1]` — dropping the first, highest-scoring
entry — and re-index the result by the `video_id` column.  `none` models
the `IndexError` of `.index[0]` when the video is not in the table. -/
def recommend_similar_videos (d : RecData) (video_id : Nat)
    (res_length : Nat := 20) : Option (List (Nat × ℚ)) :=
  if video_id ∈ d.categories_video_id then
    let idx := d.categories_video_id.findIdx (fun x => x = video_id)
    let sim_scores := enumQ (d.content_based_cosine_sim.getD idx [])
    let top := ((List.insertionSort valDescLex sim_scores).drop 1).take res_length
    some (top.map (fun p => (d.categories_video_id.getD p.1 0, p.2)))
  else none

/-- History helper `get_most_watched_videos_by_user_id`: the user's interaction
rows sorted by descending watch ratio, truncated to `head_count`. -/
def get_most_watched_videos_by_user_id (df : List (Nat × Nat × ℚ)) (user_id : Nat)
    (head_count : Nat := 5) : List (Nat × Nat × ℚ) :=
  (List.insertionSort ratioDesc (df.filter (fun r => r.1 = user_id))).take head_count

/-- The `user_history` list built inside `recommmend_videos_for_user`:
video ids of the user's 20 most-watched interaction rows. -/
def user_history_of (d : RecData) (user_id : Nat) : List Nat :=
  (get_most_watched_videos_by_user_id d.interactions user_id 20).map (fun r => r.2.1)

/-- Value of a series at a label, 0 when the label is absent. -/
def seriesGetD (s : List (Nat × ℚ)) (i : Nat) : ℚ :=
  ((s.find? (fun p => p.1 = i)).map Prod.snd).getD 0

/-- The labels (index) of a series. -/
def seriesIds (s : List (Nat × ℚ)) : List Nat := s.map Prod.fst

/-- The values of a series. -/
def seriesValues (s : List (Nat × ℚ)) : List ℚ := s.map Prod.snd

/-- pandas `Series.add(other, fill_value=0)`: align both series on the sorted
union of their label sets, filling missing entries with 0. -/
def seriesAdd (s t : List (Nat × ℚ)) : List (Nat × ℚ) :=
  (List.insertionSort (fun a b : Nat => a ≤ b) ((seriesIds s ++ seriesIds t).dedup)).map
    (fun i => (i, seriesGetD s i + seriesGetD t i))

/-- pandas `Series.mul(c)`: scale every value. -/
def seriesScale (c : ℚ) (s : List (Nat × ℚ)) : List (Nat × ℚ) :=
  s.map (fun p => (p.1, p.2 * c))

/-- pandas `Series.max()` (0 on the empty series, which pandas treats as NaN;
the notebook only takes the max of series it has checked to be nonempty). -/
def seriesMax (s : List (Nat × ℚ)) : ℚ := listMax (seriesValues s)

/-- In-place division of a series by its own maximum (`s /= s.max()`), over
the exact rationals.  When the maximum is 0 (a nonempty all-zero component)
the program's float division produces non-finite values where `ℚ` yields 0;
that corner is modelled faithfully by `nanDiv` below, and the theorems about
score values assume it away explicitly with a `seriesMax s ≠ 0` hypothesis
for nonempty `s`. -/
def seriesDivMax (s : List (Nat × ℚ)) : List (Nat × ℚ) :=
  s.map (fun p => (p.1, p.2 / seriesMax s))

/-- The normalization step of `recommmend_videos_for_user`: divide by the
maximum unless the series is empty (the code's only guard).  A zero maximum
is not guarded by the code and makes the float program produce non-finite
scores; see `seriesDivMax` and `nanDiv`. -/
def normalizeByMax (s : List (Nat × ℚ)) : List (Nat × ℚ) :=
  if s.isEmpty then s else seriesDivMax s

/-- The content-score accumulation loop of `recommmend_videos_for_user`:
starting from an empty series, add (`fill_value=0`) the 10 most similar videos
of each history video.  `none` when some history video has no categories row. -/
def content_scores_of (d : RecData) (user_id : Nat) : Option (List (Nat × ℚ)) :=
  (user_history_of d user_id).foldlM
    (fun acc vid => (recommend_similar_videos d vid 10).map (fun s => seriesAdd acc s)) []

/-- The combination step of `recommmend_videos_for_user`: collaborative scores
from the top-50 collaborative list, accumulated content scores, each normalized
by its own maximum when nonempty, then blended as
`content * w + collab * (1 - w)` with missing entries treated as 0. -/
def hybrid_combined (d : RecData) (user_id : Nat) (content_weight : ℚ) :
    Option (List (Nat × ℚ)) := do
  let collab_scores ← recommend_videos_by_users d user_id 10 50
  let content_scores ← content_scores_of d user_id
  pure (seriesAdd (seriesScale content_weight (normalizeByMax content_scores))
    (seriesScale (1 - content_weight) (normalizeByMax collab_scores)))

/-- The hybrid scorer `recommmend_videos_for_user` (sic) from the notebook:
combine the two components, drop the user's 20-video history from the result,
sort by descending score and return the first `res_length` entries. -/
def recommmend_videos_for_user (d : RecData) (user_id : Nat)
    (content_weight : ℚ := 3/10) (res_length : Nat := 10) :
    Option (List (Nat × ℚ)) := do
  let combined_scores ← hybrid_combined d user_id content_weight
  let user_history := user_history_of d user_id
  pure ((sortByValueDesc (combined_scores.filter
    (fun p => ¬ p.1 ∈ user_history))).take res_length)

/-- The benchmark metric `f1_score_at_k` from the notebook. -/
def f1_score_at_k (p r : ℚ) : ℚ :=
  if p + r = 0 then 0 else 2 * (p * r) / (p + r)

/-- Dot product of two score rows (`linear_kernel` entry); zip truncates to
the shorter row, which never happens on the square matrices involved. -/
def dotList (v w : List ℚ) : ℚ := ((v.zip w).map (fun p => p.1 * p.2)).sum

/-- scikit-learn `cosine_similarity` entry (i, j) over a row matrix `M`:
the dot product of rows i and j divided by the product of their Euclidean
norms (a zero norm makes the quotient 0, as scikit-learn's row normalization
leaves zero rows at zero). -/
noncomputable def cosine_similarity (M : List (List ℚ)) (i j : Nat) : ℝ :=
  ((dotList (M.getD i []) (M.getD j []) : ℚ) : ℝ) /
    (Real.sqrt ((dotList (M.getD i []) (M.getD i []) : ℚ) : ℝ) *
      Real.sqrt ((dotList (M.getD j []) (M.getD j []) : ℚ) : ℝ))

/-- scikit-learn `linear_kernel` entry (i, j): the plain dot product of rows. -/
def linear_kernel (X : List (List ℚ)) (i j : Nat) : ℚ :=
  dotList (X.getD i []) (X.getD j [])

/-- A minimal one-user, one-item state used to instantiate general theorems. -/
def stW : RecData :=
  { nUsers := 1
    nItems := 1
    interactions := [(0, 0, 1)]
    user_similarity := [[1]]
    categories_video_id := [0]
    content_based_cosine_sim := [[1]] }

/-- A state exhibiting the content component re-introducing a watched video:
one user who interacted with all 21 videos (ratios 21 down to 1, so video 20
falls outside the 20-video history head), and a content matrix making video 20
similar to video 0. -/
def cexHybrid : RecData :=
  { nUsers := 1
    nItems := 21
    interactions := (List.range 21).map (fun i => (0, i, (21 : ℚ) - i))
    user_similarity := [[1]]
    categories_video_id := List.range 21
    content_based_cosine_sim :=
      (List.range 21).map (fun i => (List.range 21).map (fun j =>
        if i = j then 1
        else if (i = 0 ∧ j = 20) ∨ (i = 20 ∧ j = 0) then 1/2 else 0)) }

/-- Engagement vector (watch ratios on videos 0 and 1) of each of the 11 users
of `cexCollab`.  Every pair is a Pythagorean pair, so every row of the pivot
has an integer Euclidean norm and the cosine-similarity matrix is exactly
rational. -/
def cexCollabVec (u : Nat) : List ℚ :=
  ([[1, 0], [40, 9], [24, 7], [12, 5], [15, 8], [4, 3],
    [21, 20], [20, 21], [3, 4], [8, 15], [5, 12]] : List (List ℚ)).getD u []

/-- The Euclidean norm of each user's engagement vector in `cexCollab`. -/
def cexCollabNorm (u : Nat) : ℚ :=
  ([1, 41, 25, 13, 17, 5, 29, 29, 5, 17, 13] : List ℚ).getD u 0

/-- A state exhibiting the off-by-one of the similar-user slice: 11 users,
each with at least one interaction row (so the pivot's index holds all of
them and no lookup can fail), whose engagement vectors give pairwise distinct
exact rational cosine similarities to user 0, in strictly decreasing order of
user index.  `user_similarity` is the true cosine matrix of these vectors
(the counterexample theorem checks this against the pivot), so the state is
exactly what the notebook computes from its interaction table.  The code's
9-user selection (users 0–8, user 0 included) scores video 1 as 77/9, while
the spec's 10-other-user selection (users 1–10) scores it 52/5. -/
def cexCollab : RecData :=
  { nUsers := 11
    nItems := 2
    interactions := [(0, 0, 1),
      (1, 0, 40), (1, 1, 9), (2, 0, 24), (2, 1, 7), (3, 0, 12), (3, 1, 5),
      (4, 0, 15), (4, 1, 8), (5, 0, 4), (5, 1, 3), (6, 0, 21), (6, 1, 20),
      (7, 0, 20), (7, 1, 21), (8, 0, 3), (8, 1, 4), (9, 0, 8), (9, 1, 15),
      (10, 0, 5), (10, 1, 12)]
    user_similarity :=
      (List.range 11).map (fun i => (List.range 11).map (fun j =>
        dotList (cexCollabVec i) (cexCollabVec j) /
          (cexCollabNorm i * cexCollabNorm j)))
    categories_video_id := [0, 1]
    content_based_cosine_sim := [[1, 0], [0, 1]] }

/-- Float division as performed by `s /= s.max()`: dividing by a zero maximum
produces a non-finite IEEE value (NaN for a zero numerator, an infinity
otherwise — with values bounded by the zero maximum only NaN and -∞ can
occur, and with the nonnegative data of this artifact only NaN), modelled by
`none`.  The rational pipeline above idealizes this case to 0; the theorems
that speak about score values therefore either assume a nonzero maximum for
every nonempty component or exhibit this corner explicitly. -/
def nanDiv (x m : ℚ) : Option ℚ := if m = 0 then none else some (x / m)

/-- Float multiplication of `Series.mul(c)` on a possibly non-finite value:
a non-finite operand yields a non-finite result (NaN · c = NaN). -/
def nanMul (c : ℚ) (x : Option ℚ) : Option ℚ := x.map (fun v => v * c)

/-- The per-label semantics of `Series.add(other, fill_value=0)` on possibly
non-finite values: pandas fills a missing or NaN value on one side with 0
before adding, and leaves the result missing (NaN) only when both sides are
missing or NaN.  `none` stands for "missing or non-finite". -/
def nanAddFill : Option ℚ → Option ℚ → Option ℚ
  | none, none => none
  | none, some y => some y
  | some x, none => some x
  | some x, some y => some (x + y)

/-- A state reaching the zero-maximum normalization corner: one user who
watched video 0, and a two-video categories table whose similarity matrix is
the identity (each video similar only to itself).  The content component then
accumulates the single entry (video 1, score 0) — nonempty with maximum 0 —
so the program's `content_scores /= content_scores.max()` divides by zero and
video 1 is returned with a NaN score, while the rational pipeline idealizes
that score to 0. -/
def cexNaN : RecData :=
  { nUsers := 1
    nItems := 1
    interactions := [(0, 0, 1)]
    user_similarity := [[1]]
    categories_video_id := [0, 1]
    content_based_cosine_sim := [[1, 0], [0, 1]] }

end HybridRec

namespace HybridRec

/-! Supporting lemmas about the series and sorting primitives. -/

theorem mem_enumQ {v : List ℚ} {p : Nat × ℚ} :
    p ∈ enumQ v ↔ p.1 < v.length ∧ p.2 = v.getD p.1 0 := by
  unfold enumQ
  constructor
  · intro h
    rcases List.mem_map.mp h with ⟨i, hi, rfl⟩
    exact ⟨List.mem_range.mp hi, rfl⟩
  · rintro ⟨h1, h2⟩
    exact List.mem_map.mpr ⟨p.1, List.mem_range.mpr h1, Prod.ext rfl h2.symm⟩

theorem length_enumQ (v : List ℚ) : (enumQ v).length = v.length := by
  unfold enumQ
  rw [List.length_map, List.length_range]

theorem seriesGetD_of_not_mem {s : List (Nat × ℚ)} {i : Nat}
    (h : i ∉ seriesIds s) : seriesGetD s i = 0 := by
  unfold seriesGetD
  have hf : s.find? (fun p => p.1 = i) = none := by
    rw [List.find?_eq_none]
    intro x hx
    simp only [decide_eq_true_eq]
    intro hxi
    exact h (hxi ▸ List.mem_map.mpr ⟨x, hx, rfl⟩)
  rw [hf]
  rfl

theorem seriesGetD_ne_zero_mem {s : List (Nat × ℚ)} {i : Nat}
    (h : seriesGetD s i ≠ 0) : i ∈ seriesIds s := by
  by_contra hni
  exact h (seriesGetD_of_not_mem hni)

theorem seriesGetD_cases (s : List (Nat × ℚ)) (i : Nat) :
    seriesGetD s i = 0 ∨ ∃ q ∈ s, q.1 = i ∧ seriesGetD s i = q.2 := by
  unfold seriesGetD
  cases hf : s.find? (fun p => p.1 = i) with
  | none => exact Or.inl rfl
  | some q =>
    right
    refine ⟨q, List.mem_of_find?_eq_some hf, ?_, rfl⟩
    simpa using List.find?_some hf

theorem seriesGetD_nonneg {s : List (Nat × ℚ)}
    (h : ∀ p ∈ s, 0 ≤ p.2) (i : Nat) : 0 ≤ seriesGetD s i := by
  rcases seriesGetD_cases s i with h0 | ⟨q, hq, _, hval⟩
  · rw [h0]
  · rw [hval]; exact h q hq

theorem seriesGetD_bounds {s : List (Nat × ℚ)}
    (h : ∀ p ∈ s, 0 ≤ p.2 ∧ p.2 ≤ 1) (i : Nat) :
    0 ≤ seriesGetD s i ∧ seriesGetD s i ≤ 1 := by
  rcases seriesGetD_cases s i with h0 | ⟨q, hq, _, hval⟩
  · rw [h0]; exact ⟨le_refl 0, zero_le_one⟩
  · rw [hval]; exact h q hq

theorem find?_map_pair (s : List (Nat × ℚ)) (g : Nat × ℚ → ℚ) (i : Nat) :
    (s.map (fun p => (p.1, g p))).find? (fun p => p.1 = i) =
      (s.find? (fun p => p.1 = i)).map (fun p => (p.1, g p)) := by
  induction s with
  | nil => rfl
  | cons q t ih =>
    by_cases h : q.1 = i
    · simp [List.find?_cons, h]
    · simp [List.find?_cons, h, ih]

theorem seriesGetD_seriesScale (c : ℚ) (s : List (Nat × ℚ)) (i : Nat) :
    seriesGetD (seriesScale c s) i = seriesGetD s i * c := by
  unfold seriesGetD seriesScale
  rw [find?_map_pair]
  cases s.find? (fun p => p.1 = i) <;> simp

theorem seriesGetD_seriesDivMax (s : List (Nat × ℚ)) (i : Nat) :
    seriesGetD (seriesDivMax s) i = seriesGetD s i / seriesMax s := by
  unfold seriesGetD seriesDivMax
  rw [find?_map_pair]
  cases s.find? (fun p => p.1 = i) <;> simp

theorem seriesIds_map_pair (s : List (Nat × ℚ)) (g : Nat × ℚ → ℚ) :
    seriesIds (s.map (fun p => (p.1, g p))) = seriesIds s := by
  unfold seriesIds
  rw [List.map_map]
  rfl

theorem seriesIds_seriesScale (c : ℚ) (s : List (Nat × ℚ)) :
    seriesIds (seriesScale c s) = seriesIds s :=
  seriesIds_map_pair s _

theorem seriesIds_seriesDivMax (s : List (Nat × ℚ)) :
    seriesIds (seriesDivMax s) = seriesIds s :=
  seriesIds_map_pair s _

theorem seriesIds_normalizeByMax (s : List (Nat × ℚ)) :
    seriesIds (normalizeByMax s) = seriesIds s := by
  unfold normalizeByMax
  by_cases h : s.isEmpty <;> simp [h, seriesIds_seriesDivMax]

theorem find?_map_of_nodup {l : List Nat} (f : Nat → ℚ) {i : Nat}
    (hl : l.Nodup) (hi : i ∈ l) :
    (l.map (fun j => (j, f j))).find? (fun p => p.1 = i) = some (i, f i) := by
  induction l with
  | nil => cases hi
  | cons a t ih =>
    rcases List.mem_cons.mp hi with rfl | hit
    · simp [List.find?_cons]
    · have ha : ¬ a = i := by
        rintro rfl
        exact (List.nodup_cons.mp hl).1 hit
      simp [List.find?_cons, ha, ih (List.nodup_cons.mp hl).2 hit]

theorem seriesIds_map_nat (l : List Nat) (f : Nat → ℚ) :
    seriesIds (l.map (fun j => (j, f j))) = l := by
  unfold seriesIds
  rw [List.map_map]
  exact List.map_id l

theorem seriesIds_seriesAdd (s t : List (Nat × ℚ)) :
    seriesIds (seriesAdd s t) =
      List.insertionSort (fun a b : Nat => a ≤ b) ((seriesIds s ++ seriesIds t).dedup) := by
  unfold seriesAdd
  rw [seriesIds_map_nat]

theorem mem_seriesIds_seriesAdd {s t : List (Nat × ℚ)} {i : Nat} :
    i ∈ seriesIds (seriesAdd s t) ↔ i ∈ seriesIds s ∨ i ∈ seriesIds t := by
  rw [seriesIds_seriesAdd, List.mem_insertionSort, List.mem_dedup, List.mem_append]

theorem seriesGetD_seriesAdd (s t : List (Nat × ℚ)) (i : Nat) :
    seriesGetD (seriesAdd s t) i = seriesGetD s i + seriesGetD t i := by
  by_cases hi : i ∈ (seriesIds s ++ seriesIds t).dedup
  · have hnd : (List.insertionSort (fun a b : Nat => a ≤ b)
        ((seriesIds s ++ seriesIds t).dedup)).Nodup :=
      (List.perm_insertionSort _ _).nodup_iff.mpr (List.nodup_dedup _)
    have hmem : i ∈ List.insertionSort (fun a b : Nat => a ≤ b)
        ((seriesIds s ++ seriesIds t).dedup) :=
      (List.mem_insertionSort _).mpr hi
    unfold seriesAdd seriesGetD
    rw [find?_map_of_nodup _ hnd hmem]
    rfl
  · have his : i ∉ seriesIds s := fun h =>
      hi (List.mem_dedup.mpr (List.mem_append.mpr (Or.inl h)))
    have hit : i ∉ seriesIds t := fun h =>
      hi (List.mem_dedup.mpr (List.mem_append.mpr (Or.inr h)))
    have hiadd : i ∉ seriesIds (seriesAdd s t) := by
      rw [mem_seriesIds_seriesAdd]
      rintro (h | h)
      · exact his h
      · exact hit h
    rw [seriesGetD_of_not_mem hiadd, seriesGetD_of_not_mem his,
      seriesGetD_of_not_mem hit]
    norm_num

theorem mem_seriesAdd {s t : List (Nat × ℚ)} {p : Nat × ℚ} :
    p ∈ seriesAdd s t ↔ (p.1 ∈ seriesIds s ∨ p.1 ∈ seriesIds t) ∧
      p.2 = seriesGetD s p.1 + seriesGetD t p.1 := by
  unfold seriesAdd
  constructor
  · intro h
    rcases List.mem_map.mp h with ⟨j, hj, rfl⟩
    have hj' : j ∈ (seriesIds s ++ seriesIds t).dedup :=
      (List.mem_insertionSort _).mp hj
    exact ⟨by simpa [List.mem_dedup, List.mem_append] using hj', rfl⟩
  · rintro ⟨h1, h2⟩
    apply List.mem_map.mpr
    refine ⟨p.1, ?_, Prod.ext rfl h2.symm⟩
    apply (List.mem_insertionSort _).mpr
    rw [List.mem_dedup, List.mem_append]
    exact h1

theorem le_listMax_of_mem {l : List ℚ} {x : ℚ} (h : x ∈ l) : x ≤ listMax l := by
  induction l with
  | nil => cases h
  | cons a t ih =>
    cases t with
    | nil =>
      rcases List.mem_singleton.mp h with rfl
      exact le_refl _
    | cons b t' =>
      rcases List.mem_cons.mp h with rfl | h'
      · exact le_max_left _ _
      · exact le_trans (ih h') (le_max_right _ _)

theorem listMax_nonneg {l : List ℚ} (h : ∀ x ∈ l, 0 ≤ x) : 0 ≤ listMax l := by
  cases l with
  | nil => exact le_refl 0
  | cons a t =>
    exact le_trans (h a (List.mem_cons_self a t))
      (le_listMax_of_mem (List.mem_cons_self a t))

theorem listMean_nonneg {l : List ℚ} (h : ∀ x ∈ l, 0 ≤ x) : 0 ≤ listMean l := by
  unfold listMean
  exact div_nonneg (List.sum_nonneg h) (Nat.cast_nonneg _)

theorem user_item_matrix_nonneg {d : RecData}
    (h : ∀ r ∈ d.interactions, 0 ≤ r.2.2) (u i : Nat) :
    0 ≤ user_item_matrix d u i := by
  unfold user_item_matrix
  apply listMax_nonneg
  intro x hx
  unfold pivotVals at hx
  rcases List.mem_map.mp hx with ⟨r, hr, rfl⟩
  exact h r (List.mem_filter.mp hr).1

theorem mem_of_mem_sorted_filter_take {s : List (Nat × ℚ)}
    {pred : Nat × ℚ → Bool} {n : Nat} {p : Nat × ℚ}
    (h : p ∈ (sortByValueDesc (s.filter pred)).take n) :
    p ∈ s ∧ pred p = true := by
  have h1 : p ∈ sortByValueDesc (s.filter pred) :=
    (List.take_sublist _ _).subset h
  have h2 : p ∈ s.filter pred := by
    unfold sortByValueDesc at h1
    exact (List.mem_insertionSort _).mp h1
  exact ⟨(List.mem_filter.mp h2).1, (List.mem_filter.mp h2).2⟩

theorem recommmend_videos_for_user_eq {d : RecData} {u : Nat} {w : ℚ} {res : Nat}
    {l : List (Nat × ℚ)}
    (h : recommmend_videos_for_user d u w res = some l) :
    ∃ k c, recommend_videos_by_users d u 10 50 = some k ∧
      content_scores_of d u = some c ∧
      l = (sortByValueDesc ((seriesAdd (seriesScale w (normalizeByMax c))
        (seriesScale (1 - w) (normalizeByMax k))).filter
          (fun p => ¬ p.1 ∈ user_history_of d u))).take res := by
  unfold recommmend_videos_for_user hybrid_combined at h
  cases hk : recommend_videos_by_users d u 10 50 with
  | none => rw [hk] at h; simp at h
  | some k =>
    rw [hk] at h
    cases hc : content_scores_of d u with
    | none => rw [hc] at h; simp at h
    | some c =>
      rw [hc] at h
      simp only [Option.bind_eq_bind, Option.some_bind, Option.pure_def,
        Option.some_inj] at h
      exact ⟨k, c, rfl, rfl, h.symm⟩

theorem dotList_comm (v w : List ℚ) : dotList v w = dotList w v := by
  induction v generalizing w with
  | nil => cases w <;> rfl
  | cons a v ih =>
    cases w with
    | nil => rfl
    | cons b w =>
      show a * b + dotList v w = b * a + dotList w v
      rw [mul_comm a b, ih w]

/-- C7: for nonnegative precision and recall, `f1_score_at_k` returns 0 when
precision + recall = 0 and the harmonic mean `2 * p * r / (p + r)` otherwise;
in particular `f1_score_at_k 0 (1/2) = 0`, and no division error can arise
since the zero denominator is guarded. -/
theorem f1_score_at_k_spec (p r : ℚ) (hp : 0 ≤ p) (hr : 0 ≤ r) :
    (p + r = 0 → f1_score_at_k p r = 0) ∧
    (p + r ≠ 0 → f1_score_at_k p r = 2 * p * r / (p + r)) ∧
    f1_score_at_k 0 (1/2) = 0 := by
  refine ⟨fun h => ?_, fun h => ?_, ?_⟩
  · simp [f1_score_at_k, h]
  · rw [f1_score_at_k, if_neg h, mul_assoc]
  · norm_num [f1_score_at_k]

/-- C7 witness at the boundary case precision = 0, recall = 1/2. -/
theorem f1_score_at_k_spec_witness :
    (0 : ℚ) ≤ 0 ∧ (0 : ℚ) ≤ 1/2 ∧
    ((0 : ℚ) + 1/2 ≠ 0 → f1_score_at_k 0 (1/2) = 2 * 0 * (1/2) / (0 + 1/2)) ∧
    f1_score_at_k 0 (1/2) = 0 :=
  ⟨le_refl 0, by norm_num,
    (f1_score_at_k_spec 0 (1/2) (le_refl 0) (by norm_num)).2.1,
    (f1_score_at_k_spec 0 (1/2) (le_refl 0) (by norm_num)).2.2⟩

/-- C8: both similarity computations are symmetric: the cosine similarity of
rows i and j of any matrix equals that of rows j and i, and likewise for the
linear kernel over the TF-IDF rows. -/
theorem similarity_matrices_symmetric (M X : List (List ℚ)) (i j : Nat) :
    cosine_similarity M i j = cosine_similarity M j i ∧
    linear_kernel X i j = linear_kernel X j i := by
  constructor
  · unfold cosine_similarity
    rw [dotList_comm (M.getD i []) (M.getD j []), mul_comm]
  · unfold linear_kernel
    exact dotList_comm _ _

/-- C5: a user_id outside the index space of the similarity matrix (an id at
or beyond `nUsers`) makes both the collaborative scorer and the hybrid scorer
fail with the modelled lookup error (`none`, the raised `IndexError`) rather
than return a result. -/
theorem unknown_user_returns_none (d : RecData) (u : Nat) (h : d.nUsers ≤ u)
    (nb res res' : Nat) (w : ℚ) :
    recommend_videos_by_users d u nb res = none ∧
    recommmend_videos_for_user d u w res' = none := by
  have h1 : ∀ nb' res'', recommend_videos_by_users d u nb' res'' = none := by
    intro nb' res''
    unfold recommend_videos_by_users
    rw [if_neg (Nat.not_lt.mpr h)]
  refine ⟨h1 nb res, ?_⟩
  unfold recommmend_videos_for_user hybrid_combined
  rw [h1 10 50]
  rfl

/-- C5 witness: user 1 is outside the one-user state `stW`. -/
theorem unknown_user_returns_none_witness :
    stW.nUsers ≤ 1 ∧ recommend_videos_by_users stW 1 10 10 = none ∧
    recommmend_videos_for_user stW 1 (3/10) 10 = none :=
  ⟨by decide, (unknown_user_returns_none stW 1 (by decide) 10 10 10 (3/10)).1,
    (unknown_user_returns_none stW 1 (by decide) 10 10 10 (3/10)).2⟩

/-- C6: the hybrid result for a smaller `res_length` is a prefix of the result
for a larger one — the internal combined ranking does not depend on
`res_length`, which only truncates it. -/
theorem res_length_prefix_monotone (d : RecData) (u : Nat) (w : ℚ)
    (n m : Nat) (hnm : n ≤ m) (l₁ l₂ : List (Nat × ℚ))
    (h₁ : recommmend_videos_for_user d u w n = some l₁)
    (h₂ : recommmend_videos_for_user d u w m = some l₂) :
    ∃ t, l₂ = l₁ ++ t := by
  rcases recommmend_videos_for_user_eq h₁ with ⟨k, c, hk, hc, e₁⟩
  rcases recommmend_videos_for_user_eq h₂ with ⟨k', c', hk', hc', e₂⟩
  rw [hk] at hk'
  rw [hc] at hc'
  rcases Option.some.inj hk' with rfl
  rcases Option.some.inj hc' with rfl
  rw [e₁, e₂]
  refine ⟨((sortByValueDesc ((seriesAdd (seriesScale w (normalizeByMax c))
    (seriesScale (1 - w) (normalizeByMax k))).filter
      (fun p => ¬ p.1 ∈ user_history_of d u))).take m).drop n, ?_⟩
  conv_lhs => rw [← List.take_append_drop n ((sortByValueDesc ((seriesAdd
    (seriesScale w (normalizeByMax c)) (seriesScale (1 - w) (normalizeByMax k))).filter
      (fun p => ¬ p.1 ∈ user_history_of d u))).take m)]
  rw [List.take_take, min_eq_left hnm]

set_option maxRecDepth 100000 in
unseal Rat.add Rat.mul Rat.inv Rat.sub in
/-- C6 witness on the minimal state with result lengths 1 ≤ 2. -/
theorem res_length_prefix_monotone_witness :
    (1 : Nat) ≤ 2 ∧
    recommmend_videos_for_user stW 0 (3/10) 1 = some [] ∧
    recommmend_videos_for_user stW 0 (3/10) 2 = some [] ∧
    ∃ t, ([] : List (Nat × ℚ)) = [] ++ t :=
  ⟨by decide, by decide, by decide,
    res_length_prefix_monotone stW 0 (3/10) 1 2 (by decide) [] [] (by decide) (by decide)⟩

/-- C1 (amended): the hybrid result never contains an item of the computed
20-entry history head — the list `user_history` that the code drops.  (The
original claim — that no item with any recorded interaction is returned — is
refuted by `hybrid_returns_interacted_video` below: the content component can
reintroduce a watched item that falls outside the 20 most-watched rows.) -/
theorem hybrid_avoids_history_head (d : RecData) (u : Nat) (w : ℚ)
    (res : Nat) (l : List (Nat × ℚ))
    (h : recommmend_videos_for_user d u w res = some l) :
    ∀ p ∈ l, p.1 ∉ user_history_of d u := by
  rcases recommmend_videos_for_user_eq h with ⟨k, c, _, _, rfl⟩
  intro p hp
  have hpred := (mem_of_mem_sorted_filter_take hp).2
  simpa using hpred

set_option maxRecDepth 100000 in
unseal Rat.add Rat.mul Rat.inv Rat.sub in
/-- C1 counterexample: in `cexHybrid`, user 0 has interacted with video 20
(watch ratio 1, a nonzero pivot cell), yet the hybrid with weight 1/2 returns
exactly video 20. -/
theorem hybrid_returns_interacted_video :
    (0 : ℚ) ≤ 1/2 ∧ (1 : ℚ)/2 ≤ 1 ∧ 0 < cexHybrid.nUsers ∧
    recommmend_videos_for_user cexHybrid 0 (1/2) 10 = some [(20, 1/2)] ∧
    (0, 20, (1 : ℚ)) ∈ cexHybrid.interactions ∧
    user_item_matrix cexHybrid 0 20 ≠ 0 := by decide

set_option maxRecDepth 100000 in
unseal Rat.add Rat.mul Rat.inv Rat.sub in
/-- C1 witness: the single item returned in the counterexample state is
nevertheless not in the 20-entry history head. -/
theorem hybrid_avoids_history_head_witness :
    recommmend_videos_for_user cexHybrid 0 (1/2) 10 = some [(20, 1/2)] ∧
    ((20, (1 : ℚ)/2) : Nat × ℚ).1 ∉ user_history_of cexHybrid 0 :=
  ⟨by decide,
    hybrid_avoids_history_head cexHybrid 0 (1/2) 10 [(20, 1/2)] (by decide)
      (20, 1/2) (by decide)⟩

theorem insertionSort_asc_reverse (l : List (Nat × ℚ)) :
    (List.insertionSort valAscLex l).reverse =
      List.insertionSort valDescIdxDesc l := by
  apply List.eq_of_perm_of_sorted (r := valDescIdxDesc)
  · exact ((List.reverse_perm _).trans (List.perm_insertionSort _ _)).trans
      (List.perm_insertionSort _ _).symm
  · apply List.pairwise_reverse.mpr
    apply List.Pairwise.imp ?_ (List.sorted_insertionSort valAscLex l)
    intro a b hab
    unfold valAscLex at hab
    unfold valDescIdxDesc
    rcases hab with h | ⟨e, n⟩
    · exact Or.inl h
    · exact Or.inr ⟨e.symm, n⟩
  · exact List.sorted_insertionSort _ _

theorem similar_users_take_eq (v : List ℚ) {nb : Nat} (hnb0 : ¬ nb = 0) :
    similar_users_of_row v nb =
      ((List.insertionSort valDescIdxDesc (enumQ v)).map Prod.fst).take (nb - 1) := by
  unfold similar_users_of_row sliceRevSkip argsortAsc
  rw [if_neg hnb0, ← List.map_reverse, insertionSort_asc_reverse]

theorem mem_similar_users_of_strict_max (v : List ℚ) (nb u : Nat)
    (hnb : 2 ≤ nb) (hu : u < v.length)
    (hmax : ∀ k, k < v.length → k ≠ u → v.getD k 0 < v.getD u 0) :
    u ∈ similar_users_of_row v nb := by
  rw [similar_users_take_eq v (by omega : ¬ nb = 0)]
  obtain ⟨hd, tl, hL⟩ : ∃ hd tl,
      List.insertionSort valDescIdxDesc (enumQ v) = hd :: tl := by
    have hlen : (List.insertionSort valDescIdxDesc (enumQ v)).length = v.length := by
      rw [List.length_insertionSort, length_enumQ]
    cases hS : List.insertionSort valDescIdxDesc (enumQ v) with
    | nil => rw [hS] at hlen; simp at hlen; omega
    | cons a b => exact ⟨a, b, rfl⟩
  have hhd_mem : hd ∈ enumQ v := by
    have : hd ∈ List.insertionSort valDescIdxDesc (enumQ v) := by
      rw [hL]; exact List.mem_cons_self _ _
    exact (List.mem_insertionSort _).mp this
  obtain ⟨hhd1, hhd2⟩ := mem_enumQ.mp hhd_mem
  have hu_mem : ((u, v.getD u 0) : Nat × ℚ) ∈
      List.insertionSort valDescIdxDesc (enumQ v) :=
    (List.mem_insertionSort _).mpr (mem_enumQ.mpr ⟨hu, rfl⟩)
  have hd1 : hd.1 = u := by
    by_contra hne
    have hlt : hd.2 < v.getD u 0 := by
      rw [hhd2]
      exact hmax hd.1 hhd1 hne
    rw [hL] at hu_mem
    rcases List.mem_cons.mp hu_mem with heq' | htl
    · exact hne (by rw [← heq'])
    · have hsorted := List.sorted_insertionSort valDescIdxDesc (enumQ v)
      rw [hL] at hsorted
      have hrel := List.rel_of_sorted_cons hsorted _ htl
      unfold valDescIdxDesc at hrel
      rcases hrel with h' | ⟨e', _⟩
      · exact absurd (h'.trans hlt) (lt_irrefl _)
      · rw [e'] at hlt
        exact absurd hlt (lt_irrefl _)
  obtain ⟨m, hm⟩ : ∃ m, nb - 1 = m + 1 := ⟨nb - 2, by omega⟩
  rw [hL, hm, List.map_cons, List.take_succ_cons]
  exact List.mem_cons.mpr (Or.inl hd1.symm)

/-- C2 (amended): for every `nb_top_similar ≥ 1`, the collaborative scorer's
reversed argsort slice selects the `nb_top_similar - 1` (not `nb_top_similar`)
highest-similarity entries of the user's similarity row; each returned item's
score is the average of the engagement of exactly those selected users; and
whenever the user's own entry is the strict maximum of the row (as the unit
self-cosine is) the selection includes the user themself instead of excluding
them.  (The original claim — averaging over the top-N other users — is
refuted by `collab_selection_differs_from_spec` below.) -/
theorem similar_users_slice_characterization (d : RecData) (u nb res : Nat)
    (k : List (Nat × ℚ)) (hnb : 1 ≤ nb)
    (hk : recommend_videos_by_users d u nb res = some k) :
    similar_users_of_row (d.user_similarity.getD u []) nb =
      ((List.insertionSort valDescIdxDesc
        (enumQ (d.user_similarity.getD u []))).map Prod.fst).take (nb - 1) ∧
    (∀ p ∈ k, p.2 =
      listMean ((similar_users_of_row (d.user_similarity.getD u []) nb).map
        (fun v => user_item_matrix d v p.1))) ∧
    (2 ≤ nb → u < (d.user_similarity.getD u []).length →
      (∀ j, j < (d.user_similarity.getD u []).length → j ≠ u →
        (d.user_similarity.getD u []).getD j 0 <
          (d.user_similarity.getD u []).getD u 0) →
      u ∈ similar_users_of_row (d.user_similarity.getD u []) nb) := by
  refine ⟨similar_users_take_eq _ (by omega : ¬ nb = 0), ?_, ?_⟩
  · intro p hp
    unfold recommend_videos_by_users at hk
    by_cases hu' : u < d.nUsers
    · rw [if_pos hu'] at hk
      rcases Option.some.inj hk with rfl
      rcases List.mem_map.mp ((List.mem_insertionSort _).mp
          ((List.mem_filter.mp ((List.take_sublist _ _).subset hp)).1))
        with ⟨i, _, rfl⟩
      rfl
    · rw [if_neg hu'] at hk
      cases hk
  · intro h2 hu hmax
    exact mem_similar_users_of_strict_max _ nb u h2 hu hmax

set_option maxRecDepth 1000000 in
unseal Rat.add Rat.mul Rat.inv Rat.sub in
/-- C2 counterexample: the matrix carried by `cexCollab` is the exact cosine
matrix of its own pivot table (first conjunct: every entry is nonnegative and
its square times the squared norms equals the squared dot product of the two
users' engagement rows, which pins it as the cosine), the code's selection
for user 0 is the nine users 0–8 — user 0 itself included — rather than the
ten most similar other users 1–10, and the resulting collaborative ranking
differs from the spec's: video 1 scores 77/9 instead of 52/5. -/
theorem collab_selection_differs_from_spec :
    (∀ i, i < 11 → ∀ j, j < 11 →
      0 ≤ (cexCollab.user_similarity.getD i []).getD j 0 ∧
      (cexCollab.user_similarity.getD i []).getD j 0 *
          (cexCollab.user_similarity.getD i []).getD j 0 *
          (dotList ((List.range 2).map (fun t => user_item_matrix cexCollab i t))
              ((List.range 2).map (fun t => user_item_matrix cexCollab i t)) *
            dotList ((List.range 2).map (fun t => user_item_matrix cexCollab j t))
              ((List.range 2).map (fun t => user_item_matrix cexCollab j t))) =
        dotList ((List.range 2).map (fun t => user_item_matrix cexCollab i t))
            ((List.range 2).map (fun t => user_item_matrix cexCollab j t)) *
          dotList ((List.range 2).map (fun t => user_item_matrix cexCollab i t))
            ((List.range 2).map (fun t => user_item_matrix cexCollab j t))) ∧
    similar_users_of_row (cexCollab.user_similarity.getD 0 []) 10 =
      [0, 1, 2, 3, 4, 5, 6, 7, 8] ∧
    recommend_videos_by_users cexCollab 0 10 10 = some [(1, 77/9)] ∧
    recommend_videos_by_users_spec cexCollab 0 10 10 = some [(1, 52/5)] ∧
    recommend_videos_by_users cexCollab 0 10 10 ≠
      recommend_videos_by_users_spec cexCollab 0 10 10 := by decide

set_option maxRecDepth 1000000 in
unseal Rat.add Rat.mul Rat.inv Rat.sub in
/-- C2 witness at `cexCollab`, user 0, the default ten similar users. -/
theorem similar_users_slice_characterization_witness :
    (1 : Nat) ≤ 10 ∧
    recommend_videos_by_users cexCollab 0 10 10 = some [(1, 77/9)] ∧
    (similar_users_of_row (cexCollab.user_similarity.getD 0 []) 10 =
      ((List.insertionSort valDescIdxDesc
        (enumQ (cexCollab.user_similarity.getD 0 []))).map Prod.fst).take (10 - 1) ∧
    (∀ p ∈ [((1 : Nat), (77 : ℚ)/9)], p.2 =
      listMean ((similar_users_of_row (cexCollab.user_similarity.getD 0 []) 10).map
        (fun v => user_item_matrix cexCollab v p.1))) ∧
    (2 ≤ 10 → 0 < (cexCollab.user_similarity.getD 0 []).length →
      (∀ j, j < (cexCollab.user_similarity.getD 0 []).length → j ≠ 0 →
        (cexCollab.user_similarity.getD 0 []).getD j 0 <
          (cexCollab.user_similarity.getD 0 []).getD 0 0) →
      0 ∈ similar_users_of_row (cexCollab.user_similarity.getD 0 []) 10)) :=
  ⟨by decide, by decide,
    similar_users_slice_characterization cexCollab 0 10 10 [(1, 77/9)]
      (by decide) (by decide)⟩

/-- C3: whenever both components are available, the combined series of the
hybrid scorer is the `fill_value=0` sum of the content component scaled by
`w` and the collaborative component scaled by `1 - w`, each divided by its
own maximum unless empty; its value at every label is exactly
`w * content + (1 - w) * collab` (missing entries contributing 0), and its
label set is the union of the two component label sets. -/
theorem hybrid_combination_formula (d : RecData) (u : Nat) (w : ℚ)
    (c k : List (Nat × ℚ))
    (hc : content_scores_of d u = some c)
    (hk : recommend_videos_by_users d u 10 50 = some k) :
    hybrid_combined d u w = some (seriesAdd (seriesScale w (normalizeByMax c))
      (seriesScale (1 - w) (normalizeByMax k))) ∧
    (∀ i, seriesGetD (seriesAdd (seriesScale w (normalizeByMax c))
        (seriesScale (1 - w) (normalizeByMax k))) i =
      w * seriesGetD (normalizeByMax c) i +
        (1 - w) * seriesGetD (normalizeByMax k) i) ∧
    (∀ i, i ∈ seriesIds (seriesAdd (seriesScale w (normalizeByMax c))
        (seriesScale (1 - w) (normalizeByMax k))) ↔
      i ∈ seriesIds (normalizeByMax c) ∨ i ∈ seriesIds (normalizeByMax k)) := by
  refine ⟨?_, ?_, ?_⟩
  · unfold hybrid_combined
    rw [hk, hc]
    rfl
  · intro i
    rw [seriesGetD_seriesAdd, seriesGetD_seriesScale, seriesGetD_seriesScale]
    ring
  · intro i
    rw [mem_seriesIds_seriesAdd, seriesIds_seriesScale, seriesIds_seriesScale]

set_option maxRecDepth 100000 in
unseal Rat.add Rat.mul Rat.inv Rat.sub in
/-- C3 witness on the minimal state, where both components are empty. -/
theorem hybrid_combination_formula_witness :
    content_scores_of stW 0 = some [] ∧
    recommend_videos_by_users stW 0 10 50 = some [] ∧
    hybrid_combined stW 0 (1/2) =
      some (seriesAdd (seriesScale (1/2) (normalizeByMax []))
        (seriesScale (1 - 1/2) (normalizeByMax []))) ∧
    seriesGetD (seriesAdd (seriesScale (1/2) (normalizeByMax []))
        (seriesScale (1 - 1/2) (normalizeByMax []))) 0 =
      (1/2) * seriesGetD (normalizeByMax []) 0 +
        (1 - 1/2) * seriesGetD (normalizeByMax ([] : List (Nat × ℚ))) 0 :=
  ⟨by decide, by decide,
    (hybrid_combination_formula stW 0 (1/2) [] [] (by decide) (by decide)).1,
    (hybrid_combination_formula stW 0 (1/2) [] [] (by decide) (by decide)).2.1 0⟩

/-- C4 (amended): with `content_weight = 0`, and provided no nonempty
component has a zero maximum (the corner where the program's normalization
produces NaN scores, exhibited by `hybrid_score_nan_counterexample`), every
returned score equals the normalized collaborative score of that item (0 for
items the collaborative component does not carry), and every returned item
with a nonzero score comes from the collaborative component.  The returned
ranking itself can differ from the collaborative ranking alone, because items
contributed only by the content component survive with score 0 — refuted as
originally stated by `weight_zero_ranking_differs` below. -/
theorem weight_zero_scores_are_collaborative (d : RecData) (u : Nat)
    (res : Nat) (k c l : List (Nat × ℚ))
    (hk : recommend_videos_by_users d u 10 50 = some k)
    (hc0 : content_scores_of d u = some c)
    (hcm : c ≠ [] → seriesMax c ≠ 0)
    (hkm : k ≠ [] → seriesMax k ≠ 0)
    (h : recommmend_videos_for_user d u 0 res = some l) :
    ∀ p ∈ l, p.2 = seriesGetD (normalizeByMax k) p.1 ∧
      (p.2 ≠ 0 → p.1 ∈ seriesIds k) := by
  rcases recommmend_videos_for_user_eq h with ⟨k', c', hk', hc', rfl⟩
  rw [hk] at hk'
  rcases Option.some.inj hk' with rfl
  rw [hc0] at hc'
  rcases Option.some.inj hc' with rfl
  intro p hp
  have hpc := (mem_of_mem_sorted_filter_take hp).1
  have hval := (mem_seriesAdd.mp hpc).2
  rw [seriesGetD_seriesScale, seriesGetD_seriesScale] at hval
  have hval' : p.2 = seriesGetD (normalizeByMax k) p.1 := by
    rw [hval]; ring
  refine ⟨hval', fun hne => ?_⟩
  rw [← seriesIds_normalizeByMax]
  exact seriesGetD_ne_zero_mem (hval' ▸ hne)

set_option maxRecDepth 100000 in
unseal Rat.add Rat.mul Rat.inv Rat.sub in
/-- C4 counterexample: in `cexHybrid` the hybrid ranking at weight 0 is the
single zero-scored content item [20], while the collaborative component alone
returns the empty ranking. -/
theorem weight_zero_ranking_differs :
    recommmend_videos_for_user cexHybrid 0 0 10 = some [(20, 0)] ∧
    recommend_videos_by_users cexHybrid 0 10 10 = some [] ∧
    (recommmend_videos_for_user cexHybrid 0 0 10).map (List.map Prod.fst) ≠
      (recommend_videos_by_users cexHybrid 0 10 10).map (List.map Prod.fst) := by
  decide

set_option maxRecDepth 100000 in
unseal Rat.add Rat.mul Rat.inv Rat.sub in
/-- C4 witness: the zero-scored item (20, 0) of the counterexample run indeed
carries the collaborative component's (empty) normalized score; the nonempty
content component of that run has maximum 1/2 ≠ 0. -/
theorem weight_zero_scores_are_collaborative_witness :
    recommend_videos_by_users cexHybrid 0 10 50 = some [] ∧
    content_scores_of cexHybrid 0 = some [(0, 0), (1, 0), (2, 0), (3, 0), (4, 0),
      (5, 0), (6, 0), (7, 0), (8, 0), (9, 0), (10, 0), (20, 1/2)] ∧
    seriesMax [((0 : Nat), (0 : ℚ)), (1, 0), (2, 0), (3, 0), (4, 0),
      (5, 0), (6, 0), (7, 0), (8, 0), (9, 0), (10, 0), (20, 1/2)] ≠ 0 ∧
    recommmend_videos_for_user cexHybrid 0 0 10 = some [(20, 0)] ∧
    (((20, (0 : ℚ)) : Nat × ℚ).2 =
      seriesGetD (normalizeByMax []) ((20, (0 : ℚ)) : Nat × ℚ).1 ∧
      (((20, (0 : ℚ)) : Nat × ℚ).2 ≠ 0 →
        ((20, (0 : ℚ)) : Nat × ℚ).1 ∈ seriesIds ([] : List (Nat × ℚ)))) :=
  ⟨by decide, by decide, by decide, by decide,
    weight_zero_scores_are_collaborative cexHybrid 0 10 []
      [(0, 0), (1, 0), (2, 0), (3, 0), (4, 0), (5, 0), (6, 0), (7, 0), (8, 0),
        (9, 0), (10, 0), (20, 1/2)] [(20, 0)]
      (by decide) (by decide) (by decide) (by decide) (by decide)
      (20, 0) (by decide)⟩

/-- C9: for a video present in the categories table (and a well-formed square
similarity matrix), `recommend_similar_videos` succeeds, drops exactly the
head — the highest-scoring entry — of its stably sorted candidate list, and
returns at most `res_length` of the remaining entries, re-indexed by video id,
in descending similarity order. -/
theorem recommend_similar_videos_spec (d : RecData) (video_id res : Nat)
    (hv : video_id ∈ d.categories_video_id)
    (hwf : ∀ row ∈ d.content_based_cosine_sim,
      row.length = d.categories_video_id.length)
    (hn : d.content_based_cosine_sim.length = d.categories_video_id.length) :
    ∃ l best rest,
      recommend_similar_videos d video_id res = some l ∧
      List.insertionSort valDescLex (enumQ (d.content_based_cosine_sim.getD
        (d.categories_video_id.findIdx (fun x => x = video_id)) [])) = best :: rest ∧
      (∀ q ∈ enumQ (d.content_based_cosine_sim.getD
        (d.categories_video_id.findIdx (fun x => x = video_id)) []),
        q.2 ≤ best.2) ∧
      l = (rest.take res).map (fun p => (d.categories_video_id.getD p.1 0, p.2)) ∧
      l.length ≤ res ∧
      List.Pairwise (fun a b : Nat × ℚ => b.2 ≤ a.2) l := by
  have hidxlt : d.categories_video_id.findIdx (fun x => x = video_id) <
      d.categories_video_id.length :=
    List.findIdx_lt_length_of_exists ⟨video_id, hv, by simp⟩
  have hrowlen : (d.content_based_cosine_sim.getD
      (d.categories_video_id.findIdx (fun x => x = video_id)) []).length =
      d.categories_video_id.length := by
    have h1 : d.categories_video_id.findIdx (fun x => x = video_id) <
        d.content_based_cosine_sim.length := by
      rw [hn]; exact hidxlt
    rw [List.getD_eq_getElem _ _ h1]
    exact hwf _ (List.getElem_mem h1)
  have hlen : (List.insertionSort valDescLex (enumQ
      (d.content_based_cosine_sim.getD
        (d.categories_video_id.findIdx (fun x => x = video_id)) []))).length =
      d.categories_video_id.length := by
    rw [List.length_insertionSort, length_enumQ, hrowlen]
  obtain ⟨best, rest, hL⟩ : ∃ b r, List.insertionSort valDescLex (enumQ
      (d.content_based_cosine_sim.getD
        (d.categories_video_id.findIdx (fun x => x = video_id)) [])) = b :: r := by
    have hpos : 0 < d.categories_video_id.length :=
      List.length_pos.mpr (List.ne_nil_of_mem hv)
    cases hS : List.insertionSort valDescLex (enumQ
        (d.content_based_cosine_sim.getD
          (d.categories_video_id.findIdx (fun x => x = video_id)) [])) with
    | nil => rw [hS] at hlen; simp at hlen; omega
    | cons a b => exact ⟨a, b, rfl⟩
  have hsorted := List.sorted_insertionSort valDescLex (enumQ
    (d.content_based_cosine_sim.getD
      (d.categories_video_id.findIdx (fun x => x = video_id)) []))
  rw [hL] at hsorted
  refine ⟨(rest.take res).map (fun p => (d.categories_video_id.getD p.1 0, p.2)),
    best, rest, ?_, hL, ?_, rfl, ?_, ?_⟩
  · unfold recommend_similar_videos
    rw [if_pos hv]
    show some ((((List.insertionSort valDescLex (enumQ
      (d.content_based_cosine_sim.getD
        (d.categories_video_id.findIdx (fun x => x = video_id)) []))).drop 1).take
          res).map (fun p => (d.categories_video_id.getD p.1 0, p.2))) = _
    rw [hL]
    rfl
  · intro q hq
    have hq' : q ∈ best :: rest := by
      rw [← hL]
      exact (List.mem_insertionSort _).mpr hq
    rcases List.mem_cons.mp hq' with rfl | hqrest
    · exact le_refl _
    · have hrel := List.rel_of_sorted_cons hsorted _ hqrest
      unfold valDescLex at hrel
      rcases hrel with h' | ⟨e', _⟩
      · exact le_of_lt h'
      · exact e'.symm.le
  · rw [List.length_map, List.length_take]
    exact min_le_left _ _
  · have hrest : List.Pairwise valDescLex rest := (List.sorted_cons.mp hsorted).2
    have htake : List.Pairwise valDescLex (rest.take res) :=
      List.Pairwise.sublist (List.take_sublist _ _) hrest
    apply List.pairwise_map.mpr
    apply List.Pairwise.imp ?_ htake
    intro a b hab
    unfold valDescLex at hab
    rcases hab with h' | ⟨e', _⟩
    · exact le_of_lt h'
    · exact e'.symm.le

set_option maxRecDepth 100000 in
unseal Rat.add Rat.mul Rat.inv Rat.sub in
/-- C9 witness at video 5 of the 21-video counterexample state. -/
theorem recommend_similar_videos_spec_witness :
    5 ∈ cexHybrid.categories_video_id ∧
    (∃ l best rest,
      recommend_similar_videos cexHybrid 5 10 = some l ∧
      List.insertionSort valDescLex (enumQ (cexHybrid.content_based_cosine_sim.getD
        (cexHybrid.categories_video_id.findIdx (fun x => x = 5)) [])) = best :: rest ∧
      (∀ q ∈ enumQ (cexHybrid.content_based_cosine_sim.getD
        (cexHybrid.categories_video_id.findIdx (fun x => x = 5)) []),
        q.2 ≤ best.2) ∧
      l = (rest.take 10).map (fun p => (cexHybrid.categories_video_id.getD p.1 0, p.2)) ∧
      l.length ≤ 10 ∧
      List.Pairwise (fun a b : Nat × ℚ => b.2 ≤ a.2) l) :=
  ⟨by decide,
    recommend_similar_videos_spec cexHybrid 5 10 (by decide) (by decide) (by decide)⟩

theorem getD_nil_or_mem (l : List (List ℚ)) (i : Nat) :
    l.getD i [] ∈ l ∨ l.getD i [] = [] := by
  by_cases h : i < l.length
  · left
    rw [List.getD_eq_getElem _ _ h]
    exact List.getElem_mem h
  · right
    exact List.getD_eq_default _ _ (Nat.le_of_not_lt h)

theorem recommend_videos_by_users_nonneg {d : RecData} {u nb res : Nat}
    {k : List (Nat × ℚ)}
    (hinter : ∀ r ∈ d.interactions, 0 ≤ r.2.2)
    (hk : recommend_videos_by_users d u nb res = some k) :
    ∀ p ∈ k, 0 ≤ p.2 := by
  unfold recommend_videos_by_users at hk
  by_cases hu : u < d.nUsers
  · rw [if_pos hu] at hk
    rcases Option.some.inj hk with rfl
    intro p hp
    rcases List.mem_map.mp ((List.mem_insertionSort _).mp
        ((List.mem_filter.mp ((List.take_sublist _ _).subset hp)).1))
      with ⟨i, _, rfl⟩
    apply listMean_nonneg
    intro x hx
    rcases List.mem_map.mp hx with ⟨v, _, rfl⟩
    exact user_item_matrix_nonneg hinter v i
  · rw [if_neg hu] at hk
    cases hk

theorem recommend_similar_videos_nonneg {d : RecData} {vid res : Nat}
    {s : List (Nat × ℚ)}
    (hcontent : ∀ row ∈ d.content_based_cosine_sim, ∀ x ∈ row, 0 ≤ x)
    (hs : recommend_similar_videos d vid res = some s) :
    ∀ p ∈ s, 0 ≤ p.2 := by
  unfold recommend_similar_videos at hs
  by_cases hv : vid ∈ d.categories_video_id
  · rw [if_pos hv] at hs
    rcases Option.some.inj hs with rfl
    intro p hp
    rcases List.mem_map.mp hp with ⟨q, hq, rfl⟩
    show 0 ≤ q.2
    have h1 : q ∈ List.insertionSort valDescLex (enumQ
        (d.content_based_cosine_sim.getD
          (d.categories_video_id.findIdx (fun x => x = vid)) [])) :=
      (List.drop_sublist _ _).subset ((List.take_sublist _ _).subset hq)
    have h2 := mem_enumQ.mp ((List.mem_insertionSort _).mp h1)
    rw [h2.2]
    rcases getD_nil_or_mem d.content_based_cosine_sim
        (d.categories_video_id.findIdx (fun x => x = vid)) with hmem | hnil
    · rw [List.getD_eq_getElem _ _ h2.1]
      exact hcontent _ hmem _ (List.getElem_mem h2.1)
    · have h3 := h2.1
      rw [hnil] at h3
      exact absurd h3 (by simp)
  · rw [if_neg hv] at hs
    cases hs

theorem content_fold_nonneg {d : RecData}
    (hcontent : ∀ row ∈ d.content_based_cosine_sim, ∀ x ∈ row, 0 ≤ x) :
    ∀ (hist : List Nat) (acc c : List (Nat × ℚ)),
      (∀ p ∈ acc, 0 ≤ p.2) →
      hist.foldlM (fun acc vid =>
        (recommend_similar_videos d vid 10).map (fun s => seriesAdd acc s)) acc =
          some c →
      ∀ p ∈ c, 0 ≤ p.2 := by
  intro hist
  induction hist with
  | nil =>
    intro acc c hacc hfold
    rw [List.foldlM_nil] at hfold
    rcases Option.some.inj hfold with rfl
    exact hacc
  | cons v t ih =>
    intro acc c hacc hfold
    rw [List.foldlM_cons] at hfold
    cases hs : recommend_similar_videos d v 10 with
    | none =>
      rw [hs] at hfold
      simp at hfold
    | some sv =>
      rw [hs] at hfold
      simp only [Option.map_some', Option.bind_eq_bind, Option.some_bind] at hfold
      apply ih (seriesAdd acc sv) c ?_ hfold
      intro p hp
      rw [(mem_seriesAdd.mp hp).2]
      have h1 := seriesGetD_nonneg hacc p.1
      have h2 := seriesGetD_nonneg (recommend_similar_videos_nonneg hcontent hs) p.1
      linarith

theorem content_scores_of_nonneg {d : RecData} {u : Nat} {c : List (Nat × ℚ)}
    (hcontent : ∀ row ∈ d.content_based_cosine_sim, ∀ x ∈ row, 0 ≤ x)
    (hc : content_scores_of d u = some c) : ∀ p ∈ c, 0 ≤ p.2 :=
  content_fold_nonneg hcontent _ [] c (fun p hp => absurd hp (List.not_mem_nil p)) hc

theorem normalizeByMax_bounds {s : List (Nat × ℚ)} (h : ∀ p ∈ s, 0 ≤ p.2) :
    ∀ p ∈ normalizeByMax s, 0 ≤ p.2 ∧ p.2 ≤ 1 := by
  unfold normalizeByMax
  by_cases he : s.isEmpty
  · rw [if_pos he]
    intro p hp
    rw [List.isEmpty_iff] at he
    rw [he] at hp
    exact absurd hp (List.not_mem_nil p)
  · rw [if_neg he]
    intro p hp
    unfold seriesDivMax at hp
    rcases List.mem_map.mp hp with ⟨q, hq, rfl⟩
    have hq0 : 0 ≤ q.2 := h q hq
    have hqM : q.2 ≤ seriesMax s :=
      le_listMax_of_mem (List.mem_map.mpr ⟨q, hq, rfl⟩)
    show 0 ≤ q.2 / seriesMax s ∧ q.2 / seriesMax s ≤ 1
    by_cases hM : seriesMax s = 0
    · have hq0' : q.2 = 0 := le_antisymm (hM ▸ hqM) hq0
      rw [hq0', hM]
      norm_num
    · have hMpos : 0 < seriesMax s := lt_of_le_of_ne (le_trans hq0 hqM) (Ne.symm hM)
      exact ⟨div_nonneg hq0 (le_of_lt hMpos), (div_le_one hMpos).mpr hqM⟩

/-- C10 (amended): under nonnegative engagement ratios and similarity scores,
a content weight in [0, 1], and — the condition the original claim lacks —
no nonempty component with a zero maximum (the corner in which the program's
`s /= s.max()` divides by zero and produces NaN scores, exhibited by
`hybrid_score_nan_counterexample` below), every score in the hybrid result
lies in [0, 1]: each normalized component is bounded by its own maximum, and
the blend is a convex combination of the two components. -/
theorem hybrid_scores_in_unit_interval (d : RecData) (u : Nat) (w : ℚ)
    (res : Nat) (k c l : List (Nat × ℚ))
    (hw0 : 0 ≤ w) (hw1 : w ≤ 1)
    (hinter : ∀ r ∈ d.interactions, 0 ≤ r.2.2)
    (husim : ∀ row ∈ d.user_similarity, ∀ x ∈ row, 0 ≤ x)
    (hcontent : ∀ row ∈ d.content_based_cosine_sim, ∀ x ∈ row, 0 ≤ x)
    (hk2 : recommend_videos_by_users d u 10 50 = some k)
    (hc2 : content_scores_of d u = some c)
    (hcm : c ≠ [] → seriesMax c ≠ 0)
    (hkm : k ≠ [] → seriesMax k ≠ 0)
    (h : recommmend_videos_for_user d u w res = some l) :
    ∀ p ∈ l, 0 ≤ p.2 ∧ p.2 ≤ 1 := by
  rcases recommmend_videos_for_user_eq h with ⟨k', c', hk, hc, rfl⟩
  rw [hk2] at hk
  rcases Option.some.inj hk with rfl
  rw [hc2] at hc
  rcases Option.some.inj hc with rfl
  intro p hp
  have hpc := (mem_of_mem_sorted_filter_take hp).1
  have hval := (mem_seriesAdd.mp hpc).2
  rw [seriesGetD_seriesScale, seriesGetD_seriesScale] at hval
  obtain ⟨hc0, hc1⟩ := seriesGetD_bounds
    (normalizeByMax_bounds (content_scores_of_nonneg hcontent hc2)) p.1
  obtain ⟨hk0, hk1⟩ := seriesGetD_bounds
    (normalizeByMax_bounds (recommend_videos_by_users_nonneg hinter hk2)) p.1
  rw [hval]
  have hw1' : 0 ≤ 1 - w := by linarith
  constructor
  · have h1 : 0 ≤ seriesGetD (normalizeByMax c) p.1 * w := mul_nonneg hc0 hw0
    have h2 : 0 ≤ seriesGetD (normalizeByMax k) p.1 * (1 - w) := mul_nonneg hk0 hw1'
    linarith
  · have h1 : seriesGetD (normalizeByMax c) p.1 * w ≤ 1 * w :=
      mul_le_mul_of_nonneg_right hc1 hw0
    have h2 : seriesGetD (normalizeByMax k) p.1 * (1 - w) ≤ 1 * (1 - w) :=
      mul_le_mul_of_nonneg_right hk1 hw1'
    rw [one_mul] at h1 h2
    linarith

set_option maxRecDepth 100000 in
unseal Rat.add Rat.mul Rat.inv Rat.sub in
/-- C10 counterexample: in `cexNaN` — nonnegative data, weight 1/2, user 0
valid — the content component is the nonempty all-zero series {video 1 ↦ 0},
so `content_scores.max()` is 0 and the program's `content_scores /= 0.0`
yields NaN; video 1 is still returned (the rational idealization shows it
surviving every later step), and its float score — NaN scaled by the weight,
then `fill_value=0`-added to the absent collaborative entry — is non-finite
(`none`), not a value in [0, 1]. -/
theorem hybrid_score_nan_counterexample :
    (0 : ℚ) ≤ 1/2 ∧ (1 : ℚ)/2 ≤ 1 ∧ 0 < cexNaN.nUsers ∧
    (∀ r ∈ cexNaN.interactions, 0 ≤ r.2.2) ∧
    (∀ row ∈ cexNaN.user_similarity, ∀ x ∈ row, 0 ≤ x) ∧
    (∀ row ∈ cexNaN.content_based_cosine_sim, ∀ x ∈ row, 0 ≤ x) ∧
    content_scores_of cexNaN 0 = some [(1, 0)] ∧
    ([((1 : Nat), (0 : ℚ))] : List (Nat × ℚ)) ≠ [] ∧
    seriesMax [((1 : Nat), (0 : ℚ))] = 0 ∧
    recommend_videos_by_users cexNaN 0 10 50 = some [] ∧
    recommmend_videos_for_user cexNaN 0 (1/2) 10 = some [(1, 0)] ∧
    nanAddFill (nanMul (1/2) (nanDiv (seriesGetD [((1 : Nat), (0 : ℚ))] 1)
      (seriesMax [((1 : Nat), (0 : ℚ))]))) none = none := by decide

set_option maxRecDepth 100000 in
unseal Rat.add Rat.mul Rat.inv Rat.sub in
/-- C10 witness: the `cexHybrid` run at weight 1/2 — whose nonempty content
component has maximum 1/2 ≠ 0 and whose collaborative component is empty —
returns the single score 1/2, which lies in [0, 1]. -/
theorem hybrid_scores_in_unit_interval_witness :
    (0 : ℚ) ≤ 1/2 ∧ (1 : ℚ)/2 ≤ 1 ∧
    (∀ r ∈ cexHybrid.interactions, 0 ≤ r.2.2) ∧
    recommend_videos_by_users cexHybrid 0 10 50 = some [] ∧
    content_scores_of cexHybrid 0 = some [(0, 0), (1, 0), (2, 0), (3, 0), (4, 0),
      (5, 0), (6, 0), (7, 0), (8, 0), (9, 0), (10, 0), (20, 1/2)] ∧
    recommmend_videos_for_user cexHybrid 0 (1/2) 10 = some [(20, 1/2)] ∧
    (0 ≤ ((20, (1 : ℚ)/2) : Nat × ℚ).2 ∧ ((20, (1 : ℚ)/2) : Nat × ℚ).2 ≤ 1) :=
  ⟨by decide, by decide, by decide, by decide, by decide, by decide,
    hybrid_scores_in_unit_interval cexHybrid 0 (1/2) 10 []
      [(0, 0), (1, 0), (2, 0), (3, 0), (4, 0), (5, 0), (6, 0), (7, 0), (8, 0),
        (9, 0), (10, 0), (20, 1/2)] [(20, 1/2)]
      (by decide) (by decide) (by decide) (by decide) (by decide)
      (by decide) (by decide) (by decide) (by decide) (by decide)
      (20, 1/2) (by decide)⟩

end HybridRec
